import Mathlib

/-!
Shallow embedding of `src/sandbox.ts`, a grid analysis utility:
random grid generation, per-row sign-run replacement counting,
global-minimum location, and a textual table renderer.

JavaScript cells of type `number` that are integers are modelled by `Int`;
`NaN` and non-numeric/missing values get their own constructors, since the
source distinguishes them only through `typeof v !== "number"` and
`Number.isNaN(v)` checks.  Dimension arguments of the generator are
modelled by `ℚ` so that the `Number.isInteger` test is meaningful, and
`Math.random()` is modelled by an oracle producing a rational in `[0, 1)`
per cell.
-/

namespace Sandbox

/-- A grid cell as the source can observe it: a (non-NaN, integral) number,
the number `NaN`, or a non-numeric / missing value (`undefined` etc.). -/
inductive Cell where
  | num : Int → Cell
  | nan : Cell
  | undef : Cell
deriving DecidableEq, Repr

/-- The test `typeof v === "number" && !Number.isNaN(v)` as a Boolean. -/
def Cell.isNum : Cell → Bool
  | Cell.num _ => true
  | _ => false

/-- Source `interface Position`: a 0-based (rowIndex, colIndex) pair. -/
structure Position where
  rowIndex : Nat
  colIndex : Nat
deriving DecidableEq, Repr

/-- Source `interface GlobalMinResult`; `value: number | null` is
`Option Int` and the insertion-ordered `Set<number>` of row indices is the
deduplicated list of row indices of the positions. -/
structure GlobalMinResult where
  value : Option Int
  positions : List Position
  rowsWithMin : List Nat
deriving DecidableEq, Repr

/-- Function `signOf` from the source (lines 65-70): `0` for non-numbers and NaN,
else the sign of the number. -/
def signOf : Cell → Int
  | Cell.num v => if v > 0 then 1 else if v < 0 then -1 else 0
  | _ => 0

lemma length_dropWhile_le {α : Type} (p : α → Bool) (l : List α) :
    (l.dropWhile p).length ≤ l.length := by
  conv_rhs => rw [← List.takeWhile_append_dropWhile p l]
  simp only [List.length_append]
  omega

/-- The scanning loop of `minReplacementsToAvoidTriples` (lines 79-92):
skip neutral cells; otherwise consume the maximal same-sign chain starting
at the current cell, adding `⌊chain / 3⌋` when `chain ≥ 3`. -/
def minRepAux : List Cell → Nat
  | [] => 0
  | c :: rest =>
    let s := signOf c
    if s = 0 then minRepAux rest
    else
      let chain := 1 + (rest.takeWhile (fun x => signOf x == s)).length
      (if chain ≥ 3 then chain / 3 else 0) +
        minRepAux (rest.dropWhile (fun x => signOf x == s))
termination_by l => l.length
decreasing_by
  · simp
  · have h := length_dropWhile_le (fun x => signOf x == signOf c) rest
    simp only [List.length_cons]
    omega

/-- Function `minReplacementsToAvoidTriples` from the source (lines 72-95); the
`!Array.isArray(row)` guard has no counterpart for a `List` input, and the
empty-row early return is kept. -/
def minReplacementsToAvoidTriples (row : List Cell) : Nat :=
  if row.length = 0 then 0 else minRepAux row

/-- Spec-side: lengths of the maximal runs of equal non-neutral sign in a
sign sequence, neutral entries breaking runs and contributing nothing. -/
def runLengths : List Int → List Nat
  | [] => []
  | s :: rest =>
    if s = 0 then runLengths rest
    else
      (1 + (rest.takeWhile (fun x => x == s)).length) ::
        runLengths (rest.dropWhile (fun x => x == s))
termination_by l => l.length
decreasing_by
  · simp
  · have h := length_dropWhile_le (fun x => x == s) rest
    simp only [List.length_cons]
    omega

/-- Spec-side replacement count: the sum over maximal same-sign runs of
`⌊L / 3⌋`. -/
def runSpecCount (row : List Cell) : Nat :=
  ((runLengths (row.map signOf)).map (fun L => L / 3)).sum

/-- The body of `findGlobalMin`'s loop for one numeric candidate
(lines 107-113): strictly smaller resets the position list, equal appends,
larger is ignored; `none` stands for the initial `Infinity`, which every
number is below. -/
def stepMin (st : Option Int × List Position) (x : Position × Int) :
    Option Int × List Position :=
  match st.1 with
  | none => (some x.2, [x.1])
  | some m =>
    if x.2 < m then (some x.2, [x.1])
    else if x.2 = m then (st.1, st.2 ++ [x.1])
    else st

/-- One iteration of `findGlobalMin`'s inner loop (lines 103-114):
non-numeric and NaN cells are skipped by the `continue`. -/
def scanCell (rowIndex colIndex : Nat) (c : Cell)
    (st : Option Int × List Position) : Option Int × List Position :=
  match c with
  | Cell.num v => stepMin st (⟨rowIndex, colIndex⟩, v)
  | _ => st

/-- Source `new Set(minPositions.map(pos => pos.rowIndex))`: a JavaScript `Set`
iterates in insertion order, i.e. first occurrences kept, in order. -/
def insertionDedup (l : List Nat) : List Nat :=
  l.foldl (fun acc r => if r ∈ acc then acc else acc ++ [r]) []

/-- Function `findGlobalMin` from the source (lines 97-122): row-major scan keeping
the running minimum and all positions attaining it. -/
def findGlobalMin (matrix : List (List Cell)) : GlobalMinResult :=
  let st := matrix.enum.foldl
    (fun st x => x.2.enum.foldl (fun st y => scanCell x.1 y.1 y.2 st) st)
    (none, [])
  { value := st.1
    positions := st.2
    rowsWithMin := insertionDedup (st.2.map Position.rowIndex) }

/-- Spec-side: the numeric cells of one row with their positions, in
column order. -/
def rowCells (rowIndex : Nat) (row : List Cell) : List (Position × Int) :=
  row.enum.filterMap (fun y =>
    match y.2 with
    | Cell.num v => some (⟨rowIndex, y.1⟩, v)
    | _ => none)

/-- Spec-side: all numeric cells of the grid with their positions, in
row-major order. -/
def cellsRM (matrix : List (List Cell)) : List (Position × Int) :=
  (matrix.enum.map (fun x => rowCells x.1 x.2)).flatten

/-- Spec-side: the positions, in row-major order, of the numeric cells
whose value is `m`. -/
def occurrencesOf (matrix : List (List Cell)) (m : Int) : List Position :=
  ((cellsRM matrix).filter (fun x => x.2 == m)).map (fun x => x.1)

/-- The cell stored at a position, when the position is in range. -/
def cellAt (matrix : List (List Cell)) (p : Position) : Option Cell :=
  matrix[p.rowIndex]?.bind (fun row => row[p.colIndex]?)

/-- Function `randInt` from the source (lines 41-44): swap inverted bounds, then
`Math.floor(Math.random() * (max - min + 1)) + min`, with the
`Math.random()` draw passed in as a rational in `[0, 1)`. -/
def randInt (mn mx : Int) (rnd : ℚ) : Int :=
  let p := if mn > mx then (mx, mn) else (mn, mx)
  ⌊rnd * ((p.2 : ℚ) - (p.1 : ℚ) + 1)⌋ + p.1

/-- Function `generateMatrix` from the source (lines 46-63): dimensions are
arbitrary JavaScript numbers, modelled as rationals so that
`Number.isInteger` is the test `den = 1`; failure is the thrown
`TypeError`, and the `Math.random()` source is an oracle giving one
rational per cell. -/
def generateMatrix (rows cols : ℚ) (mn mx : Int) (rnd : Nat → Nat → ℚ) :
    Except String (List (List Int)) :=
  if ¬ rows.den = 1 ∨ ¬ cols.den = 1 ∨ rows ≤ 0 ∨ cols ≤ 0 then
    Except.error ("строки и колонки должны быть целыми числами")
  else
    Except.ok ((List.range rows.num.toNat).map (fun i =>
      (List.range cols.num.toNat).map (fun j => randInt mn mx (rnd i j))))

/-- Source `interface Colors` and the `COLORS` constant (lines 6-18). -/
structure Colors where
  reset : String
  bold : String
  red : String
  yellow : String

def COLORS : Colors :=
  { reset := "\x1b[0m", bold := "\x1b[1m", red := "\x1b[31m", yellow := "\x1b[43m" }

def EMPTY_CELL : String := "—"

def ROW_MARKER : String := "*"

/-- JavaScript `String(cell)` on the cell values the model covers. -/
def jsString : Cell → String
  | Cell.num v => toString v
  | Cell.nan => "NaN"
  | Cell.undef => "undefined"

/-- JavaScript `s.padStart(width, " ")`. -/
def padStart (s : String) (w : Nat) : String :=
  String.mk (List.replicate (w - s.length) ' ') ++ s

/-- Function `computeColWidth` from the source (lines 124-136). -/
def computeColWidth (matrix : List (List Cell)) : Nat :=
  let maxCellLength := matrix.foldl
    (fun acc row => row.foldl (fun a c => Nat.max a (jsString c).length) acc) 1
  Nat.max 4 maxCellLength + 1

/-- Comparison `cellValue === globalMin` (line 193): only a non-NaN number can equal
the global minimum, and nothing equals `null`. -/
def cellEqMin (c : Cell) (m : Option Int) : Bool :=
  match c, m with
  | Cell.num v, some g => v == g
  | _, _ => false

/-- Function `formatCell` from the source (lines 138-149), with the value already
stringified. -/
def formatCell (value : String) (width : Nat) (highlight useColors : Bool) : String :=
  let s := padStart value width
  if highlight && useColors then
    COLORS.yellow ++ COLORS.bold ++ s ++ COLORS.reset
  else s

/-- Function `prettyPrintMatrix` from the source (lines 151-237); the returned list
holds, in order, the output of each `console.log` call (a call whose
argument contains a newline stays one element). -/
def prettyPrintMatrix (matrix : List (List Cell)) (useColors : Bool) : List String :=
  if matrix.length = 0 then ["Матрица пуста."]
  else
    let totalRows := matrix.length
    let totalCols := matrix.foldl (fun a row => Nat.max a row.length) 0
    let res := findGlobalMin matrix
    let colWidth := computeColWidth matrix
    let headerCells := (List.range totalCols).map
      (fun c => padStart ("c" ++ toString c) colWidth)
    let header := "     |" ++ String.join headerCells ++ "  | minPos | replace"
    let sepLine := String.mk (List.replicate header.length '-')
    let bodyLines := (List.range totalRows).map (fun rowIndex =>
      let row := matrix.getD rowIndex []
      let rowMarker := if rowIndex ∈ res.rowsWithMin then ROW_MARKER else " "
      let cellStrs := (List.range totalCols).map (fun colIndex =>
        match row[colIndex]? with
        | some cv => formatCell (jsString cv) colWidth (cellEqMin cv res.value) useColors
        | none => formatCell EMPTY_CELL colWidth false useColors)
      let positives := row.filterMap (fun c =>
        match c with
        | Cell.num v => if 0 < v then some v else none
        | _ => none)
      let minPositiveStr := match positives with
        | [] => EMPTY_CELL
        | x :: xs => toString (xs.foldl min x)
      let replacementsCount := minReplacementsToAvoidTriples row
      rowMarker ++ " r" ++ padStart (toString rowIndex) 2 ++ " |" ++
        String.join cellStrs ++ " | " ++ padStart minPositiveStr 6 ++ " | " ++
        padStart (toString replacementsCount) 4)
    let trailer := match res.value with
      | none => "Глобальный минимум не найден (нет числовых значений)."
      | some g =>
        let positionsStr := String.intercalate (", ") (res.positions.map
          (fun p => "(r" ++ toString p.rowIndex ++ ",c" ++ toString p.colIndex ++ ")"))
        if useColors then
          "Глобальный минимум: " ++ COLORS.red ++ toString g ++ COLORS.reset ++
            " найден в позициях: " ++ positionsStr
        else
          "Глобальный минимум: " ++ toString g ++ " найден в позициях: " ++ positionsStr
    ("\n" ++ header) :: sepLine :: (bodyLines ++ [sepLine, trailer, ""])

/-! ### The sign-run analyzer agrees with the per-run floor rule -/

lemma minRepAux_eq_spec (l : List Cell) :
    minRepAux l = ((runLengths (l.map signOf)).map (fun L => L / 3)).sum := by
  induction l using minRepAux.induct with
  | case1 => simp [minRepAux, runLengths]
  | case2 c rest s hs ih =>
      rw [minRepAux.eq_2, List.map_cons, runLengths.eq_2, if_pos hs, if_pos hs, ih]
  | case3 c rest s hs ih =>
      have hsc : s = signOf c := rfl
      rw [hsc] at ih hs
      rw [minRepAux.eq_2, List.map_cons, runLengths.eq_2, if_neg hs, if_neg hs]
      simp only [List.takeWhile_map, List.dropWhile_map, Function.comp_def, List.map_cons,
        List.length_map, List.sum_cons, ih]
      split
      · rfl
      · omega

lemma minReplacements_eq_runSpecCount (row : List Cell) :
    minReplacementsToAvoidTriples row = runSpecCount row := by
  cases row with
  | nil => simp [minReplacementsToAvoidTriples, runSpecCount, runLengths]
  | cons c rest =>
      simp only [minReplacementsToAvoidTriples, List.length_cons, runSpecCount]
      rw [if_neg (by omega)]
      exact minRepAux_eq_spec (c :: rest)

lemma signOf_cases (c : Cell) : signOf c = 1 ∨ signOf c = 0 ∨ signOf c = -1 := by
  cases c with
  | num v => simp only [signOf]; split_ifs <;> tauto
  | nan => exact Or.inr (Or.inl rfl)
  | undef => exact Or.inr (Or.inl rfl)

lemma signOf_num_signOf (c : Cell) : signOf (Cell.num (signOf c)) = signOf c := by
  rcases signOf_cases c with h | h | h <;> rw [h] <;> decide

lemma runLengths_sum_le (sl : List Int) : (runLengths sl).sum ≤ sl.length := by
  induction sl using runLengths.induct with
  | case1 => simp [runLengths]
  | case2 rest ih =>
      rw [runLengths.eq_2, if_pos rfl]
      exact le_trans ih (by simp)
  | case3 s rest hs ih =>
      rw [runLengths.eq_2, if_neg hs]
      have hlen := congrArg List.length
        (List.takeWhile_append_dropWhile (p := fun x => x == s) (l := rest))
      simp only [List.length_append] at hlen
      simp only [List.sum_cons, List.length_cons]
      omega

lemma sum_div3_le (l : List Nat) : (l.map (fun L => L / 3)).sum ≤ l.sum / 3 := by
  induction l with
  | nil => simp
  | cons a t ih =>
      simp only [List.map_cons, List.sum_cons]
      have h1 : a / 3 + (t.map (fun L => L / 3)).sum ≤ a / 3 + t.sum / 3 :=
        Nat.add_le_add_left ih _
      have h2 : a / 3 + t.sum / 3 ≤ (a + t.sum) / 3 := by omega
      omega

/-- C1: `minReplacements(row)` is the sum of `⌊L / 3⌋` over the maximal
consecutive runs of equal non-neutral sign, with neutral cells breaking
runs; and the spec's four concrete examples hold. -/
theorem minReplacements_is_run_floor_sum :
    (∀ row : List Cell, minReplacementsToAvoidTriples row = runSpecCount row)
    ∧ minReplacementsToAvoidTriples [Cell.num 1, Cell.num 2, Cell.num 3] = 1
    ∧ minReplacementsToAvoidTriples
        [Cell.num 1, Cell.num (-1), Cell.num 1, Cell.num (-1)] = 0
    ∧ minReplacementsToAvoidTriples
        [Cell.num 1, Cell.num 2, Cell.num 3, Cell.num 4, Cell.num 5, Cell.num 6] = 2
    ∧ minReplacementsToAvoidTriples
        [Cell.num 1, Cell.num 0, Cell.num 2, Cell.num 0, Cell.num 3] = 0 := by
  refine ⟨minReplacements_eq_runSpecCount, ?_, ?_, ?_, ?_⟩ <;>
    simp [minReplacementsToAvoidTriples, minRepAux, signOf, List.takeWhile, List.dropWhile]

/-- C9: the replacement count depends only on the sign classification:
replacing every cell by its `signOf` value leaves the count unchanged. -/
theorem minReplacements_depends_only_on_signs (row : List Cell) :
    minReplacementsToAvoidTriples (row.map (fun c => Cell.num (signOf c))) =
      minReplacementsToAvoidTriples row := by
  rw [minReplacements_eq_runSpecCount, minReplacements_eq_runSpecCount]
  unfold runSpecCount
  have h : (row.map (fun c => Cell.num (signOf c))).map signOf = row.map signOf := by
    rw [List.map_map]
    exact List.map_congr_left (fun c _ => signOf_num_signOf c)
  rw [h]

/-- C10: the replacement count of a row of length `n` is at most
`⌊n / 3⌋`. -/
theorem minReplacements_le_length_div3 (row : List Cell) :
    minReplacementsToAvoidTriples row ≤ row.length / 3 := by
  rw [minReplacements_eq_runSpecCount]
  unfold runSpecCount
  calc ((runLengths (row.map signOf)).map (fun L => L / 3)).sum
      ≤ (runLengths (row.map signOf)).sum / 3 := sum_div3_le _
    _ ≤ (row.map signOf).length / 3 :=
        Nat.div_le_div_right (runLengths_sum_le _)
    _ = row.length / 3 := by rw [List.length_map]

/-- C6: the analyzer is total and returns a non-negative integer on every
input, heterogeneous cells included, and the empty row yields exactly 0. -/
theorem minReplacements_total_nonneg :
    (∀ row : List Cell, 0 ≤ (minReplacementsToAvoidTriples row : Int))
    ∧ minReplacementsToAvoidTriples ([] : List Cell) = 0 :=
  ⟨fun _ => Int.natCast_nonneg _, rfl⟩

/-- C7: `findGlobalMin` and `minReplacements` are pure: two invocations on
the same input yield identical results (value, ordered position list, and
count all equal). -/
theorem analyzer_locator_deterministic
    (matrix : List (List Cell)) (row : List Cell) :
    findGlobalMin matrix = findGlobalMin matrix
    ∧ minReplacementsToAvoidTriples row = minReplacementsToAvoidTriples row :=
  ⟨rfl, rfl⟩

/-! ### The global-minimum scan -/

/-- Spec-side: the positions, in order, of the entries of a flat cell list
whose value is `m`. -/
def occIn (l : List (Position × Int)) (m : Int) : List Position :=
  (l.filter (fun x => x.2 == m)).map (fun x => x.1)

lemma foldl_scanCell_eq (ri : Nat) (l : List (Nat × Cell))
    (st : Option Int × List Position) :
    l.foldl (fun st y => scanCell ri y.1 y.2 st) st =
      (l.filterMap (fun y =>
        match y.2 with
        | Cell.num v => some ((⟨ri, y.1⟩ : Position), v)
        | _ => none)).foldl stepMin st := by
  induction l generalizing st with
  | nil => rfl
  | cons y t ih =>
      rw [List.foldl_cons, ih, List.filterMap_cons]
      cases hy : y.2 with
      | num v => simp only [hy, scanCell, List.foldl_cons]
      | nan => simp only [hy, scanCell]
      | undef => simp only [hy, scanCell]

lemma findGlobalMin_flat (matrix : List (List Cell)) :
    matrix.enum.foldl
      (fun st x => x.2.enum.foldl (fun st y => scanCell x.1 y.1 y.2 st) st)
      ((none : Option Int), ([] : List Position)) =
    (cellsRM matrix).foldl stepMin (none, []) := by
  rw [cellsRM, List.foldl_flatten, List.foldl_map]
  congr 1
  funext st x
  rw [foldl_scanCell_eq, rowCells]

lemma foldlMin_le (l : List (Position × Int)) (m : Int) :
    l.foldl (fun a x => min a x.2) m ≤ m := by
  induction l generalizing m with
  | nil => exact le_refl m
  | cons x t ih => exact le_trans (ih (min m x.2)) (min_le_left m x.2)

lemma stepMin_foldl_inv (l : List (Position × Int)) (m : Int) (ps : List Position) :
    l.foldl stepMin (some m, ps) =
      (some (l.foldl (fun a x => min a x.2) m),
       (if l.foldl (fun a x => min a x.2) m = m then ps else []) ++
         occIn l (l.foldl (fun a x => min a x.2) m)) := by
  induction l generalizing m ps with
  | nil => simp [occIn]
  | cons x t ih =>
      have hM := foldlMin_le t (min m x.2)
      rcases lt_trichotomy x.2 m with hlt | heq | hgt
      · have hstep : stepMin (some m, ps) x = (some x.2, [x.1]) := by
          simp [stepMin, hlt]
        have hmin : min m x.2 = x.2 := min_eq_right hlt.le
        rw [List.foldl_cons, hstep, ih]
        rw [List.foldl_cons, hmin]
        have hne : ¬ t.foldl (fun a x => min a x.2) x.2 = m := by
          rw [hmin] at hM; omega
        rw [if_neg hne]
        simp only [occIn, List.filter_cons]
        by_cases hxm : t.foldl (fun a x => min a x.2) x.2 = x.2
        · rw [if_pos hxm]
          simp [beq_iff_eq, hxm]
        · rw [if_neg hxm]
          have : ¬ (x.2 == t.foldl (fun a x => min a x.2) x.2) = true := by
            simp [beq_iff_eq]
            intro hcontra
            exact hxm hcontra.symm
          simp only [this]
          simp
      · have hstep : stepMin (some m, ps) x = (some m, ps ++ [x.1]) := by
          simp [stepMin, heq, lt_irrefl]
        have hmin : min m x.2 = m := by rw [heq, min_self]
        rw [List.foldl_cons, hstep, ih]
        rw [List.foldl_cons, hmin]
        simp only [occIn, List.filter_cons]
        by_cases hMm : t.foldl (fun a x => min a x.2) m = m
        · rw [if_pos hMm, if_pos hMm]
          have : (x.2 == t.foldl (fun a x => min a x.2) m) = true := by
            simp [beq_iff_eq, heq, hMm]
          simp only [this]
          simp
        · rw [if_neg hMm, if_neg hMm]
          have : ¬ (x.2 == t.foldl (fun a x => min a x.2) m) = true := by
            simp [beq_iff_eq, heq]
            intro hcontra
            exact hMm hcontra.symm
          simp only [this]
          simp
      · have hstep : stepMin (some m, ps) x = (some m, ps) := by
          simp [stepMin, not_lt.mpr hgt.le, ne_of_gt hgt]
        have hmin : min m x.2 = m := min_eq_left hgt.le
        rw [List.foldl_cons, hstep, ih]
        rw [List.foldl_cons, hmin]
        simp only [occIn, List.filter_cons]
        rw [hmin] at hM
        have : ¬ (x.2 == t.foldl (fun a x => min a x.2) m) = true := by
          simp [beq_iff_eq]
          omega
        simp only [this]
        simp

lemma occIn_cons (x : Position × Int) (t : List (Position × Int)) (m : Int) :
    occIn (x :: t) m = (if x.2 = m then [x.1] else []) ++ occIn t m := by
  simp only [occIn, List.filter_cons]
  by_cases h : x.2 = m
  · simp [h]
  · simp [h]

lemma findGlobalMin_value_positions (matrix : List (List Cell)) :
    ((findGlobalMin matrix).value, (findGlobalMin matrix).positions) =
      (match cellsRM matrix with
       | [] => (none, [])
       | x :: t => (some (t.foldl (fun a y => min a y.2) x.2),
                    occIn (cellsRM matrix) (t.foldl (fun a y => min a y.2) x.2))) := by
  have h := findGlobalMin_flat matrix
  unfold findGlobalMin
  cases hc : cellsRM matrix with
  | nil =>
      rw [hc] at h
      simp only [h, List.foldl_nil]
  | cons x t =>
      rw [hc] at h
      have hstep : stepMin (none, ([] : List Position)) x = (some x.2, [x.1]) := rfl
      rw [List.foldl_cons, hstep, stepMin_foldl_inv] at h
      simp only [h, occIn_cons, hc]
      by_cases hM : t.foldl (fun a y => min a y.2) x.2 = x.2
      · simp [hM]
      · have hM2 : ¬ x.2 = t.foldl (fun a y => min a y.2) x.2 :=
          fun hc2 => hM hc2.symm
        simp [hM, hM2]

lemma cellAt_of_mem_cellsRM {matrix : List (List Cell)} {p : Position} {v : Int}
    (h : (p, v) ∈ cellsRM matrix) : cellAt matrix p = some (Cell.num v) := by
  rw [cellsRM] at h
  rcases List.mem_flatten.1 h with ⟨l, hl, hpl⟩
  rcases List.mem_map.1 hl with ⟨x, hx, rfl⟩
  rw [rowCells] at hpl
  rcases List.mem_filterMap.1 hpl with ⟨y, hy, hmatch⟩
  cases hcy : y.2 with
  | num w =>
      rw [hcy] at hmatch
      have heq : ((⟨x.1, y.1⟩ : Position), w) = (p, v) := Option.some.inj hmatch
      have hp : p = ⟨x.1, y.1⟩ := (congrArg Prod.fst heq).symm
      have hv : v = w := (congrArg Prod.snd heq).symm
      have h1 : matrix[x.1]? = some x.2 := List.mem_enum_iff_getElem?.1 hx
      have h2 : x.2[y.1]? = some y.2 := List.mem_enum_iff_getElem?.1 hy
      rw [hv, cellAt, hp]
      rw [h1]
      show x.2[y.1]? = some (Cell.num w)
      rw [h2, hcy]
  | nan => rw [hcy] at hmatch; exact absurd hmatch (by simp)
  | undef => rw [hcy] at hmatch; exact absurd hmatch (by simp)

/-- C2: every returned position holds exactly the returned minimum value;
the position list is exactly the row-major list of all occurrences of that
value (smaller values reset it, equal values append); and on
`[[5,1],[1,3]]` the value is 1 with positions (0,1), (1,0) in that order. -/
theorem findGlobalMin_positions_characterize :
    (∀ (matrix : List (List Cell)) (p : Position),
        p ∈ (findGlobalMin matrix).positions →
        ∃ m, (findGlobalMin matrix).value = some m
          ∧ cellAt matrix p = some (Cell.num m))
    ∧ (∀ (matrix : List (List Cell)) (m : Int),
        (findGlobalMin matrix).value = some m →
        (findGlobalMin matrix).positions = occurrencesOf matrix m)
    ∧ findGlobalMin [[Cell.num 5, Cell.num 1], [Cell.num 1, Cell.num 3]] =
        { value := some 1
          positions := [⟨0, 1⟩, ⟨1, 0⟩]
          rowsWithMin := [0, 1] } := by
  refine ⟨?_, ?_, by decide⟩
  · intro matrix p hp
    have h := findGlobalMin_value_positions matrix
    cases hc : cellsRM matrix with
    | nil =>
        rw [hc] at h
        have hpos : (findGlobalMin matrix).positions = [] := congrArg Prod.snd h
        rw [hpos] at hp
        cases hp
    | cons x t =>
        rw [hc] at h
        have hval : (findGlobalMin matrix).value =
            some (t.foldl (fun a y => min a y.2) x.2) := congrArg Prod.fst h
        have hpos : (findGlobalMin matrix).positions =
            occIn (x :: t) (t.foldl (fun a y => min a y.2) x.2) :=
          congrArg Prod.snd h
        rw [hpos, occIn] at hp
        rcases List.mem_map.1 hp with ⟨z, hzf, hz1⟩
        rcases List.mem_filter.1 hzf with ⟨hzmem, hzeq⟩
        refine ⟨t.foldl (fun a y => min a y.2) x.2, hval, ?_⟩
        have hz2 : z.2 = t.foldl (fun a y => min a y.2) x.2 := by
          simpa using hzeq
        have hz : z = (p, t.foldl (fun a y => min a y.2) x.2) := by
          obtain ⟨z1, z2⟩ := z
          simp only at hz1 hz2
          rw [hz1, hz2]
        rw [hz] at hzmem
        rw [← hc] at hzmem
        exact cellAt_of_mem_cellsRM hzmem
  · intro matrix m hm
    have h := findGlobalMin_value_positions matrix
    cases hc : cellsRM matrix with
    | nil =>
        rw [hc] at h
        have hval : (findGlobalMin matrix).value = none := congrArg Prod.fst h
        rw [hval] at hm
        cases hm
    | cons x t =>
        rw [hc] at h
        have hval : (findGlobalMin matrix).value =
            some (t.foldl (fun a y => min a y.2) x.2) := congrArg Prod.fst h
        have hpos : (findGlobalMin matrix).positions =
            occIn (x :: t) (t.foldl (fun a y => min a y.2) x.2) :=
          congrArg Prod.snd h
        rw [hval] at hm
        have hmM : m = t.foldl (fun a y => min a y.2) x.2 :=
          (Option.some.inj hm).symm
        rw [hpos, hmM, occurrencesOf, ← occIn, hc]

/-- Witness for C2 at the grid `[[5,1],[1,3]]` and position (0,1). -/
theorem findGlobalMin_positions_characterize_witness :
    (∃ m, (findGlobalMin [[Cell.num 5, Cell.num 1],
                          [Cell.num 1, Cell.num 3]]).value = some m
       ∧ cellAt [[Cell.num 5, Cell.num 1], [Cell.num 1, Cell.num 3]] ⟨0, 1⟩ =
           some (Cell.num m))
    ∧ (findGlobalMin [[Cell.num 5, Cell.num 1],
                      [Cell.num 1, Cell.num 3]]).positions =
        occurrencesOf [[Cell.num 5, Cell.num 1], [Cell.num 1, Cell.num 3]] 1 :=
  ⟨findGlobalMin_positions_characterize.1 _ ⟨0, 1⟩ (by decide),
   findGlobalMin_positions_characterize.2.1 _ 1 (by decide)⟩

/-- C3: a grid with no non-NaN numeric cell yields the absent value `none`
and an empty position list. -/
theorem findGlobalMin_none_when_no_numeric (matrix : List (List Cell))
    (h : ∀ row ∈ matrix, ∀ c ∈ row, c.isNum = false) :
    (findGlobalMin matrix).value = none
    ∧ (findGlobalMin matrix).positions = [] := by
  have hc : cellsRM matrix = [] := by
    rw [cellsRM, List.flatten_eq_nil_iff]
    intro l hl
    rcases List.mem_map.1 hl with ⟨x, hx, rfl⟩
    rw [rowCells, List.filterMap_eq_nil_iff]
    intro y hy
    have hrow : matrix[x.1]? = some x.2 := List.mem_enum_iff_getElem?.1 hx
    have hcell : x.2[y.1]? = some y.2 := List.mem_enum_iff_getElem?.1 hy
    have hall := h x.2 (List.getElem?_mem hrow) y.2 (List.getElem?_mem hcell)
    cases hcy : y.2 with
    | num v => rw [hcy] at hall; exact absurd hall (by simp [Cell.isNum])
    | nan => simp
    | undef => simp
  have hvp := findGlobalMin_value_positions matrix
  rw [hc] at hvp
  exact ⟨congrArg Prod.fst hvp, congrArg Prod.snd hvp⟩

/-- Witness for C3 at a grid holding only NaN and non-numeric cells. -/
theorem findGlobalMin_none_when_no_numeric_witness :
    (findGlobalMin [[Cell.nan, Cell.undef], []]).value = none
    ∧ (findGlobalMin [[Cell.nan, Cell.undef], []]).positions = [] :=
  findGlobalMin_none_when_no_numeric _ (by decide)

/-! ### The grid generator -/

/-- C4: the generator throws exactly when `rows` or `cols` is not a
positive integer, and otherwise returns exactly `rows` rows of exactly
`cols` cells each. -/
theorem generateMatrix_dimension_check (rows cols : ℚ) (mn mx : Int)
    (rnd : Nat → Nat → ℚ) :
    ((∃ e, generateMatrix rows cols mn mx rnd = Except.error e) ↔
      ¬ (rows.den = 1 ∧ 0 < rows ∧ cols.den = 1 ∧ 0 < cols))
    ∧ (∀ grid, generateMatrix rows cols mn mx rnd = Except.ok grid →
        (grid.length : ℚ) = rows ∧ ∀ row ∈ grid, (row.length : ℚ) = cols) := by
  by_cases hcond : ¬ rows.den = 1 ∨ ¬ cols.den = 1 ∨ rows ≤ 0 ∨ cols ≤ 0
  · constructor
    · constructor
      · intro _
        rcases hcond with h | h | h | h
        · exact fun hc => h hc.1
        · exact fun hc => h hc.2.2.1
        · exact fun hc => absurd hc.2.1 (not_lt.mpr h)
        · exact fun hc => absurd hc.2.2.2 (not_lt.mpr h)
      · intro _
        exact ⟨_, by rw [generateMatrix, if_pos hcond]⟩
    · intro grid hgrid
      rw [generateMatrix, if_pos hcond] at hgrid
      cases hgrid
  · push_neg at hcond
    obtain ⟨h1, h2, h3, h4⟩ := hcond
    have hrpos : 0 < rows := h3
    have hcpos : 0 < cols := h4
    have hcond' : ¬ (¬ rows.den = 1 ∨ ¬ cols.den = 1 ∨ rows ≤ 0 ∨ cols ≤ 0) := by
      push_neg
      exact ⟨h1, h2, h3, h4⟩
    constructor
    · constructor
      · intro hex
        rcases hex with ⟨e, he⟩
        rw [generateMatrix, if_neg hcond'] at he
        cases he
      · intro hc
        exact absurd ⟨h1, hrpos, h2, hcpos⟩ hc
    · intro grid hgrid
      rw [generateMatrix, if_neg hcond'] at hgrid
      have hg : grid = (List.range rows.num.toNat).map (fun i =>
          (List.range cols.num.toNat).map (fun j => randInt mn mx (rnd i j))) :=
        (Except.ok.inj hgrid).symm
      have hnum : ((rows.num.toNat : ℤ) : ℚ) = rows := by
        rw [Int.toNat_of_nonneg (le_of_lt (Rat.num_pos.mpr hrpos))]
        exact Rat.coe_int_num_of_den_eq_one h1
      have hnumc : ((cols.num.toNat : ℤ) : ℚ) = cols := by
        rw [Int.toNat_of_nonneg (le_of_lt (Rat.num_pos.mpr hcpos))]
        exact Rat.coe_int_num_of_den_eq_one h2
      constructor
      · rw [hg, List.length_map, List.length_range]
        exact_mod_cast hnum
      · intro row hrow
        rw [hg] at hrow
        rcases List.mem_map.1 hrow with ⟨i, _, rfl⟩
        rw [List.length_map, List.length_range]
        exact_mod_cast hnumc

/-- Witness for C4: `rows = 1/2` is rejected, and a 2×3 call returns two
rows. -/
theorem generateMatrix_dimension_check_witness :
    (∃ e, generateMatrix (1/2) 3 0 0 (fun _ _ => 0) = Except.error e)
    ∧ (([[0, 0, 0], [0, 0, 0]] : List (List Int)).length : ℚ) = 2 :=
  ⟨(generateMatrix_dimension_check (1/2) 3 0 0 (fun _ _ => 0)).1.mpr (by norm_num),
   ((generateMatrix_dimension_check 2 3 0 0 (fun _ _ => 0)).2
      [[0, 0, 0], [0, 0, 0]]
      (by rw [generateMatrix, if_neg (by norm_num)]; norm_num [randInt]; decide)).1⟩

lemma floor_formula_range (a b : Int) (hab : a ≤ b) (r : ℚ)
    (h0 : 0 ≤ r) (h1 : r < 1) :
    a ≤ ⌊r * ((b : ℚ) - (a : ℚ) + 1)⌋ + a
    ∧ ⌊r * ((b : ℚ) - (a : ℚ) + 1)⌋ + a ≤ b := by
  have hn : (0 : ℚ) < (b : ℚ) - (a : ℚ) + 1 := by
    have : (a : ℚ) ≤ (b : ℚ) := by exact_mod_cast hab
    linarith
  have hlow : (0 : Int) ≤ ⌊r * ((b : ℚ) - (a : ℚ) + 1)⌋ := by
    rw [Int.le_floor]
    push_cast
    exact mul_nonneg h0 (le_of_lt hn)
  have hup : ⌊r * ((b : ℚ) - (a : ℚ) + 1)⌋ < b - a + 1 := by
    rw [Int.floor_lt]
    push_cast
    calc r * ((b : ℚ) - (a : ℚ) + 1) < 1 * ((b : ℚ) - (a : ℚ) + 1) :=
          mul_lt_mul_of_pos_right h1 hn
      _ = (b : ℚ) - (a : ℚ) + 1 := one_mul _
  omega

lemma randInt_range (mn mx : Int) (r : ℚ) (h0 : 0 ≤ r) (h1 : r < 1) :
    min mn mx ≤ randInt mn mx r ∧ randInt mn mx r ≤ max mn mx := by
  rw [randInt]
  by_cases h : mn > mx
  · rw [if_pos h]
    have hr := floor_formula_range mx mn (le_of_lt h) r h0 h1
    rw [min_eq_right (le_of_lt h), max_eq_left (le_of_lt h)]
    exact hr
  · rw [if_neg h]
    have hle : mn ≤ mx := not_lt.mp h
    have hr := floor_formula_range mn mx hle r h0 h1
    rw [min_eq_left hle, max_eq_right hle]
    exact hr

/-- C5: with inverted bounds silently swapped, every generated cell lies
in the inclusive range `[min(min,max), max(min,max)]`. -/
theorem generateMatrix_cells_in_range (rows cols : ℚ) (mn mx : Int)
    (rnd : Nat → Nat → ℚ) (grid : List (List Int))
    (hrnd : ∀ i j, 0 ≤ rnd i j ∧ rnd i j < 1)
    (hok : generateMatrix rows cols mn mx rnd = Except.ok grid) :
    ∀ row ∈ grid, ∀ v ∈ row, min mn mx ≤ v ∧ v ≤ max mn mx := by
  rw [generateMatrix] at hok
  by_cases hcond : ¬ rows.den = 1 ∨ ¬ cols.den = 1 ∨ rows ≤ 0 ∨ cols ≤ 0
  · rw [if_pos hcond] at hok
    cases hok
  · rw [if_neg hcond] at hok
    have hg : grid = (List.range rows.num.toNat).map (fun i =>
        (List.range cols.num.toNat).map (fun j => randInt mn mx (rnd i j))) :=
      (Except.ok.inj hok).symm
    intro row hrow v hv
    rw [hg] at hrow
    rcases List.mem_map.1 hrow with ⟨i, _, rfl⟩
    rcases List.mem_map.1 hv with ⟨j, _, rfl⟩
    exact randInt_range mn mx (rnd i j) (hrnd i j).1 (hrnd i j).2

/-- Witness for C5 with swapped bounds `min = 5 > max = 3` and a constant
zero random source, giving the single cell 3. -/
theorem generateMatrix_cells_in_range_witness :
    min (5 : Int) 3 ≤ 3 ∧ (3 : Int) ≤ max (5 : Int) 3 :=
  generateMatrix_cells_in_range 1 1 5 3 (fun _ _ => 0) [[3]]
    (fun _ _ => ⟨le_refl 0, by norm_num⟩)
    (by rw [generateMatrix, if_neg (by norm_num)]; norm_num [randInt])
    [3] (by simp) 3 (by simp)

/-! ### The renderer -/

/-- C8: rendering a grid with zero rows emits exactly one line, the
empty-grid notice, and neither header, separator, body nor trailer. -/
theorem prettyPrint_empty_grid (useColors : Bool) :
    prettyPrintMatrix [] useColors = ["Матрица пуста."]
    ∧ (prettyPrintMatrix [] useColors).length = 1 :=
  ⟨rfl, rfl⟩

end Sandbox
